import Mathlib

/-!
Verification of the `langchain-redis-rate-limiter` repository.

The repository consists of one class, `RedisRateLimiter`, built around a Lua
token-bucket script (`RedisRateLimiter._LUA_SCRIPT`, limiter.py lines 17-51)
executed atomically inside Redis, and synchronous / asynchronous acquisition
loops (`acquire`, `aacquire`, limiter.py lines 93-119).

Modelling choices:
- Redis numbers (`tokens`, `last_refill`, `max_bucket_size`,
  `requests_per_second`, the `TIME` result) are embedded as rationals `ℚ`;
  Lua arithmetic is modelled exactly, overflow-free.
- The stored hash is the pair of its two fields, each `Option ℚ`
  (`hmget key tokens last_refill` returns nil for a missing field or key).
- The script is embedded as `luaScript`, returning its integer result and the
  trace of Redis write calls it performs (`hmset`, `expire`, never `del`);
  `runScript` applies that trace to the stored state.
- The client loops are embedded over an explicit list of successive script
  outcomes (the boolean results the store would return on each attempt),
  recording the result, the number of script invocations and the trace of
  sleep events.
-/

namespace RedisRateLimiter

/-- A Redis write command issued by the Lua script. -/
inductive RedisCall where
  | hmset (tokens last_refill : ℚ) : RedisCall
  | expire (seconds : ℕ) : RedisCall
  | del : RedisCall
deriving DecidableEq

def RedisCall.isHmset : RedisCall → Bool
  | .hmset _ _ => true
  | _ => false

/-- The stored hash at one key: the `tokens` field and the `last_refill`
field, each possibly absent. -/
abbrev BucketFields : Type := Option ℚ × Option ℚ

/-- Lines 25-32 of limiter.py: the `hmget` load of the two fields followed
by `if not tokens or not last_refill then tokens = max_bucket_size;
last_refill = current_time end` — when either field is missing, both are
initialized. -/
def loadBucket (max_bucket_size current_time : ℚ) :
    Option ℚ → Option ℚ → ℚ × ℚ
  | some t, some l => (t, l)
  | _, _ => (max_bucket_size, current_time)

/-- Embedding of `RedisRateLimiter._LUA_SCRIPT` (limiter.py lines 17-51).
Given the two `ARGV` numbers, the store-clock time `current_time` obtained
from `redis.call('TIME')`, and the two hash fields read by
`redis.call('hmget', key, 'tokens', 'last_refill')`, it returns the script's
integer result together with the list of Redis write calls it performs. -/
def luaScript (max_bucket_size requests_per_second current_time : ℚ)
    (tokensField last_refillField : Option ℚ) : ℤ × List RedisCall :=
  let loaded := loadBucket max_bucket_size current_time tokensField
    last_refillField
  -- local elapsed = current_time - last_refill
  let elapsed0 := current_time - loaded.2
  -- if elapsed < 0 then elapsed = 0 end
  let elapsed := if elapsed0 < 0 then 0 else elapsed0
  -- local refill = elapsed * requests_per_second
  let refill := elapsed * requests_per_second
  -- tokens = math.min(max_bucket_size, tokens + refill)
  let tokens := min max_bucket_size (loaded.1 + refill)
  -- last_refill = current_time
  let last_refill := current_time
  if tokens ≥ 1 then
    (1, [RedisCall.hmset (tokens - 1) last_refill, RedisCall.expire 86400])
  else
    (0, [RedisCall.hmset tokens last_refill, RedisCall.expire 86400])

/-- Effect of one Redis write call on the stored hash at the script's key. -/
def applyCall (st : BucketFields) : RedisCall → BucketFields
  | .hmset t l => (some t, some l)
  | .expire _ => st
  | .del => (none, none)

/-- One atomic execution of the script at store time `current_time`:
the integer result and the stored hash after the script's writes. -/
def runScript (max_bucket_size requests_per_second current_time : ℚ)
    (st : BucketFields) : ℤ × BucketFields :=
  let res := luaScript max_bucket_size requests_per_second current_time
    st.1 st.2
  (res.1, res.2.foldl applyCall st)

/-- A sequence of script executions on one key, at the given successive
store-clock times. -/
def runSeq (max_bucket_size requests_per_second : ℚ) (st : BucketFields) :
    List ℚ → BucketFields
  | [] => st
  | t :: ts =>
      runSeq max_bucket_size requests_per_second
        (runScript max_bucket_size requests_per_second t st).2 ts

/-- Running `n` consecutive executions of the script on one key, all at the same
store-clock time `t` (zero elapsed time between attempts), returning the
boolean outcome of each attempt in order (`bool()` of the script result,
as in `RedisRateLimiter._consume`). -/
def runAttempts (max_bucket_size requests_per_second t : ℚ)
    (st : BucketFields) : ℕ → List Bool
  | 0 => []
  | n + 1 =>
      let res := runScript max_bucket_size requests_per_second t st
      decide (res.1 ≠ 0) ::
        runAttempts max_bucket_size requests_per_second t res.2 n

/-! ### The acquisition client -/

/-- A sleep performed by an acquisition loop: `time.sleep` in `acquire`,
`asyncio.sleep` in `aacquire`, each with its duration in seconds. -/
inductive WaitEvent where
  | threadSleep (seconds : ℚ) : WaitEvent
  | asyncSleep (seconds : ℚ) : WaitEvent
deriving DecidableEq

def WaitEvent.duration : WaitEvent → ℚ
  | .threadSleep s => s
  | .asyncSleep s => s

/-- The `while not self._consume(): time.sleep(self.check_every_n_seconds)`
loop of `RedisRateLimiter.acquire` (limiter.py lines 102-105), driven by the
list of successive script outcomes. Returns `none` when the supplied outcome
list is exhausted before a success (the loop would still be running);
otherwise the returned boolean, the number of script invocations made, and
the trace of sleeps performed. -/
def acquireLoop (check_every_n_seconds : ℚ) :
    List Bool → Option (Bool × ℕ × List WaitEvent)
  | [] => none
  | o :: rest =>
      if o then some (true, 1, [])
      else
        match acquireLoop check_every_n_seconds rest with
        | none => none
        | some (r, n, ws) =>
            some (r, n + 1, WaitEvent.threadSleep check_every_n_seconds :: ws)

/-- The `while not await self._aconsume(): await asyncio.sleep(...)` loop of
`RedisRateLimiter.aacquire` (limiter.py lines 116-119). -/
def aacquireLoop (check_every_n_seconds : ℚ) :
    List Bool → Option (Bool × ℕ × List WaitEvent)
  | [] => none
  | o :: rest =>
      if o then some (true, 1, [])
      else
        match aacquireLoop check_every_n_seconds rest with
        | none => none
        | some (r, n, ws) =>
            some (r, n + 1, WaitEvent.asyncSleep check_every_n_seconds :: ws)

/-- `RedisRateLimiter.acquire` (limiter.py lines 93-105): when
`blocking` is false, one `_consume` call whose outcome is returned directly
with no sleep; when `blocking` is true, the polling loop. -/
def acquire (check_every_n_seconds : ℚ) (blocking : Bool)
    (outcomes : List Bool) : Option (Bool × ℕ × List WaitEvent) :=
  if blocking then acquireLoop check_every_n_seconds outcomes
  else
    match outcomes with
    | [] => none
    | o :: _ => some (o, 1, [])

/-- `RedisRateLimiter.aacquire` (limiter.py lines 107-119). -/
def aacquire (check_every_n_seconds : ℚ) (blocking : Bool)
    (outcomes : List Bool) : Option (Bool × ℕ × List WaitEvent) :=
  if blocking then aacquireLoop check_every_n_seconds outcomes
  else
    match outcomes with
    | [] => none
    | o :: _ => some (o, 1, [])

/-- Forget which kind of sleep was used: result, number of script
invocations, and the list of slept durations. -/
def traceSummary :
    Option (Bool × ℕ × List WaitEvent) → Option (Bool × ℕ × List ℚ)
  | none => none
  | some (r, n, ws) => some (r, n, ws.map WaitEvent.duration)

/-- The sleep events of an acquisition trace (empty when the loop did not
finish). -/
def sleepEvents : Option (Bool × ℕ × List WaitEvent) → List WaitEvent
  | none => []
  | some (_, _, ws) => ws

/-! ### Key derivation -/

/-- The store key built by `RedisRateLimiter._execute_lua`
(limiter.py line 126): the configured prefix followed by ":rate_limit". -/
def bucketKey (p : String) : String := p ++ ":rate_limit"

/-- The store key built by `RedisRateLimiter._execute_lua_async`
(limiter.py line 141); textually the same derivation. -/
def bucketKeyAsync (p : String) : String := p ++ ":rate_limit"

/-- An execution of the script through a limiter configured with prefix `p`,
against a whole store (a map from keys to stored hashes): the script reads
and writes only the hash at `bucketKey p`. -/
def runOnStore (p : String) (max_bucket_size requests_per_second t : ℚ)
    (store : String → BucketFields) : ℤ × (String → BucketFields) :=
  let k := bucketKey p
  let res := runScript max_bucket_size requests_per_second t (store k)
  (res.1, fun key => if key = k then res.2 else store key)

/-! ### The claimed update algorithm, written from the claim's wording -/

/-- The stored state as the claim describes it: absent, or a pair
`(tokens, last_refill)`. -/
def toFields : Option (ℚ × ℚ) → BucketFields
  | none => (none, none)
  | some s => (some s.1, some s.2)

/-- Loading as the claim words it: when the stored state is absent,
initialize `tokens = max_bucket_size` and `last_refill = current_time`. -/
def specLoad (max_bucket_size current_time : ℚ) :
    Option (ℚ × ℚ) → ℚ × ℚ
  | none => (max_bucket_size, current_time)
  | some s => s

/-- The token-bucket update exactly as claim C1 words it: initialize
`(max_bucket_size, current_time)` when the stored state is absent, compute
`elapsed = max(0, current_time - last_refill)`, set
`tokens = min(max_bucket_size, tokens + elapsed * requests_per_second)`,
then succeed with tokens debited by exactly 1 when the refilled tokens are
at least 1, and fail with tokens undebited otherwise; `last_refill` becomes
`current_time` either way. -/
def specTokenBucket (max_bucket_size requests_per_second current_time : ℚ)
    (stored : Option (ℚ × ℚ)) : ℤ × ℚ × ℚ :=
  let init := specLoad max_bucket_size current_time stored
  let elapsed := max 0 (current_time - init.2)
  let tokens := min max_bucket_size
    (init.1 + elapsed * requests_per_second)
  if tokens ≥ 1 then (1, tokens - 1, current_time)
  else (0, tokens, current_time)

/-! ### Helper lemmas about the script -/

theorem if_lt_zero_eq_max (x : ℚ) : (if x < 0 then 0 else x) = max 0 x := by
  rcases lt_or_le x 0 with h | h
  · simp [h, max_eq_left h.le]
  · simp [not_lt.2 h, max_eq_right h]

theorem runScript_last_refill (max_bucket_size requests_per_second t : ℚ)
    (st : BucketFields) :
    (runScript max_bucket_size requests_per_second t st).2.2 = some t := by
  obtain ⟨tF, lF⟩ := st
  cases tF <;> cases lF <;>
    simp only [runScript, luaScript, loadBucket] <;>
    split_ifs <;> rfl

theorem runScript_good (M r : ℚ) (hM : 0 ≤ M) (hr : 0 ≤ r) (t : ℚ)
    (st : BucketFields)
    (h : st = (none, none) ∨
      ∃ tok l, st = (some tok, some l) ∧ 0 ≤ tok ∧ tok ≤ M) :
    ∃ tok l, (runScript M r t st).2 = (some tok, some l) ∧
      0 ≤ tok ∧ tok ≤ M := by
  rcases h with rfl | ⟨tok, l, rfl, h0, h1⟩
  · simp only [runScript, luaScript, loadBucket, sub_self, lt_self_iff_false,
      if_false, zero_mul, add_zero, min_self]
    split_ifs with hc
    · exact ⟨M - 1, t, rfl, by linarith, by linarith⟩
    · exact ⟨M, t, rfl, hM, le_refl M⟩
  · simp only [runScript, luaScript, loadBucket, if_lt_zero_eq_max]
    have hclamp : (0:ℚ) ≤ max 0 (t - l) := le_max_left 0 _
    have hrefill : (0:ℚ) ≤ max 0 (t - l) * r := mul_nonneg hclamp hr
    have htok_le : min M (tok + max 0 (t - l) * r) ≤ M := min_le_left _ _
    have htok_nonneg : (0:ℚ) ≤ min M (tok + max 0 (t - l) * r) :=
      le_min hM (by linarith)
    split_ifs with hc
    · exact ⟨_, t, rfl, by linarith, by linarith⟩
    · exact ⟨_, t, rfl, htok_nonneg, htok_le⟩

theorem runSeq_good (M r : ℚ) (hM : 0 ≤ M) (hr : 0 ≤ r) :
    ∀ (ts : List ℚ) (st : BucketFields),
      (∃ tok l, st = (some tok, some l) ∧ 0 ≤ tok ∧ tok ≤ M) →
      ∃ tok l, runSeq M r st ts = (some tok, some l) ∧ 0 ≤ tok ∧ tok ≤ M
  | [], st, h => h
  | t :: ts, st, h => by
      simp only [runSeq]
      exact runSeq_good M r hM hr ts _ (runScript_good M r hM hr t st (.inr h))

theorem runScript_same_time (M r T tok : ℚ) (htok : tok ≤ M) :
    runScript M r T (some tok, some T) =
      if tok ≥ 1 then (1, some (tok - 1), some T)
      else (0, some tok, some T) := by
  simp only [runScript, luaScript, loadBucket, sub_self, lt_self_iff_false,
    if_false, zero_mul, add_zero, min_eq_right htok]
  split_ifs with h
  · rfl
  · rfl

theorem runScript_fresh (M r T : ℚ) :
    runScript M r T (none, none) = runScript M r T (some M, some T) := by
  simp only [runScript, luaScript, loadBucket]
  split_ifs <;> rfl

theorem runAttempts_drain (M : ℕ) (r T : ℚ) :
    ∀ (n j : ℕ), j ≤ M →
      runAttempts (M:ℚ) r T (some (j:ℚ), some T) n =
        (List.range n).map (fun k => decide (k < j))
  | 0, j, hj => rfl
  | n + 1, j, hj => by
      have hcast : (j:ℚ) ≤ (M:ℚ) := by exact_mod_cast hj
      simp only [runAttempts, runScript_same_time (M:ℚ) r T (j:ℚ) hcast]
      rw [List.range_succ_eq_map, List.map_cons, List.map_map]
      rcases Nat.eq_zero_or_pos j with rfl | hpos
      · rw [if_neg (by norm_num : ¬ (((0:ℕ):ℚ) ≥ 1))]
        have ih := runAttempts_drain M r T n 0 (Nat.zero_le M)
        simp only [Nat.cast_zero] at ih
        dsimp only
        rw [Nat.cast_zero, ih]
        congr 1
      · have h1 : ((j:ℕ):ℚ) ≥ 1 := by exact_mod_cast hpos
        rw [if_pos h1]
        have hsub : ((j:ℕ):ℚ) - 1 = ((j - 1 : ℕ):ℚ) := by
          rw [Nat.cast_sub hpos, Nat.cast_one]
        have ih := runAttempts_drain M r T n (j - 1)
          (le_trans (Nat.sub_le j 1) hj)
        dsimp only
        rw [hsub, ih]
        congr 1
        · rw [decide_eq_true hpos]
          decide
        · apply List.map_congr_left
          intro k hk
          simp only [Function.comp_apply]
          exact decide_eq_decide.mpr (by omega)

theorem runAttempts_fresh_eq (M : ℕ) (r T : ℚ) :
    ∀ n : ℕ, runAttempts (M:ℚ) r T (none, none) n =
      (List.range n).map (fun k => decide (k < M))
  | 0 => rfl
  | n + 1 => by
      have hdrain := runAttempts_drain M r T (n + 1) M (le_refl M)
      simp only [runAttempts, runScript_fresh (M:ℚ) r T] at hdrain ⊢
      exact hdrain

theorem count_true_map_range_lt (j : ℕ) :
    ∀ n : ℕ,
      ((List.range n).map (fun k => decide (k < j))).count true = min n j
  | 0 => by simp
  | n + 1 => by
      rw [List.range_succ, List.map_append, List.count_append,
        count_true_map_range_lt j n]
      simp only [List.map_cons, List.map_nil]
      by_cases h : n < j
      · rw [decide_eq_true h]
        have hone : List.count true [true] = 1 := by decide
        rw [hone]
        omega
      · rw [decide_eq_false h]
        have hzero : List.count true [false] = 0 := by decide
        rw [hzero]
        omega

theorem map_range_lt_self (M : ℕ) :
    (List.range (M + 1)).map (fun k => decide (k < M)) =
      List.replicate M true ++ [false] := by
  rw [List.range_succ, List.map_append]
  have hmem : ∀ b ∈ (List.range M).map (fun k => decide (k < M)),
      b = true := by
    intro b hb
    simp only [List.mem_map, List.mem_range] at hb
    obtain ⟨k, hk, rfl⟩ := hb
    simp [hk]
  rw [List.eq_replicate_of_mem hmem]
  simp

/-! ### Helper lemmas about the acquisition loops -/

theorem acquireLoop_replicate_false (i : ℚ) :
    ∀ (k : ℕ) (rest : List Bool),
      acquireLoop i (List.replicate k false ++ true :: rest) =
        some (true, k + 1, List.replicate k (WaitEvent.threadSleep i))
  | 0, rest => by simp [acquireLoop]
  | k + 1, rest => by
      rw [List.replicate_succ, List.cons_append]
      simp [acquireLoop, acquireLoop_replicate_false i k rest,
        List.replicate_succ]

theorem traceSummary_aacquireLoop_eq (i : ℚ) :
    ∀ l : List Bool,
      traceSummary (aacquireLoop i l) = traceSummary (acquireLoop i l)
  | [] => rfl
  | o :: rest => by
      cases o with
      | true => simp [acquireLoop, aacquireLoop]
      | false =>
          have ih := traceSummary_aacquireLoop_eq i rest
          simp only [acquireLoop, aacquireLoop, if_neg (Bool.false_ne_true)]
          cases h1 : acquireLoop i rest with
          | none =>
              cases h2 : aacquireLoop i rest with
              | none => rfl
              | some v =>
                  rw [h1, h2] at ih
                  obtain ⟨r, n, ws⟩ := v
                  simp [traceSummary] at ih
          | some v =>
              cases h2 : aacquireLoop i rest with
              | none =>
                  rw [h1, h2] at ih
                  obtain ⟨r, n, ws⟩ := v
                  simp [traceSummary] at ih
              | some w =>
                  rw [h1, h2] at ih
                  obtain ⟨r, n, ws⟩ := v
                  obtain ⟨r2, n2, ws2⟩ := w
                  simp only [traceSummary, Option.some.injEq, Prod.mk.injEq] at ih ⊢
                  obtain ⟨hr, hn, hw⟩ := ih
                  refine ⟨hr, by omega, ?_⟩
                  simp [List.map_cons, hw, WaitEvent.duration]

theorem mem_sleepEvents_acquireLoop (i : ℚ) :
    ∀ (l : List Bool) (e : WaitEvent), e ∈ sleepEvents (acquireLoop i l) →
      e = WaitEvent.threadSleep i
  | [], e => by simp [acquireLoop, sleepEvents]
  | o :: rest, e => by
      cases o with
      | true => simp [acquireLoop, sleepEvents]
      | false =>
          have ih := mem_sleepEvents_acquireLoop i rest e
          simp only [acquireLoop, if_neg (Bool.false_ne_true)]
          cases h1 : acquireLoop i rest with
          | none => simp [sleepEvents]
          | some v =>
              obtain ⟨r, n, ws⟩ := v
              rw [h1] at ih
              simp only [sleepEvents, List.mem_cons] at ih ⊢
              rintro (rfl | hmem)
              · rfl
              · exact ih hmem

theorem mem_sleepEvents_aacquireLoop (i : ℚ) :
    ∀ (l : List Bool) (e : WaitEvent), e ∈ sleepEvents (aacquireLoop i l) →
      e = WaitEvent.asyncSleep i
  | [], e => by simp [aacquireLoop, sleepEvents]
  | o :: rest, e => by
      cases o with
      | true => simp [aacquireLoop, sleepEvents]
      | false =>
          have ih := mem_sleepEvents_aacquireLoop i rest e
          simp only [aacquireLoop, if_neg (Bool.false_ne_true)]
          cases h1 : aacquireLoop i rest with
          | none => simp [sleepEvents]
          | some v =>
              obtain ⟨r, n, ws⟩ := v
              rw [h1] at ih
              simp only [sleepEvents, List.mem_cons] at ih ⊢
              rintro (rfl | hmem)
              · rfl
              · exact ih hmem

/-! ### The claims -/

/-- Claim C1: one execution of the token-bucket script computes
`elapsed = max(0, current_time - last_refill)`, sets
`tokens = min(max_bucket_size, tokens + elapsed * requests_per_second)`
(initializing `tokens = max_bucket_size`, `last_refill = current_time` when
the stored state is absent), and returns success with tokens debited by
exactly 1 when the refilled tokens are at least 1, failure with tokens
undebited otherwise: the embedded script agrees with `specTokenBucket`,
the algorithm transcribed from the claim's wording, on result and on the
persisted state. -/
theorem lua_script_matches_claimed_algorithm
    (max_bucket_size requests_per_second current_time : ℚ)
    (stored : Option (ℚ × ℚ)) :
    runScript max_bucket_size requests_per_second current_time
        (toFields stored) =
      ((specTokenBucket max_bucket_size requests_per_second current_time
          stored).1,
        some (specTokenBucket max_bucket_size requests_per_second current_time
          stored).2.1,
        some (specTokenBucket max_bucket_size requests_per_second current_time
          stored).2.2) := by
  rcases stored with _ | ⟨t, l⟩ <;>
    simp only [runScript, luaScript, specTokenBucket, toFields, loadBucket,
      specLoad, if_lt_zero_eq_max] <;>
    split_ifs <;>
    rfl

/-- Claim C9: every execution of the script, on success and on failure
alike, performs exactly one `hmset` write of the bucket state, carrying the
updated tokens and the advanced `last_refill` (the current store time),
refreshes the key's time-to-live to 86400 seconds (24 hours), and never
deletes the key. -/
theorem script_persists_once_and_refreshes_ttl
    (max_bucket_size requests_per_second t : ℚ)
    (tokensField last_refillField : Option ℚ) :
    ∃ tok,
      (luaScript max_bucket_size requests_per_second t tokensField
          last_refillField).2 =
        [RedisCall.hmset tok t, RedisCall.expire 86400] ∧
      (luaScript max_bucket_size requests_per_second t tokensField
          last_refillField).2.countP RedisCall.isHmset = 1 ∧
      RedisCall.expire 86400 ∈
        (luaScript max_bucket_size requests_per_second t tokensField
          last_refillField).2 ∧
      RedisCall.del ∉
        (luaScript max_bucket_size requests_per_second t tokensField
          last_refillField).2 ∧
      List.foldl applyCall (tokensField, last_refillField)
          (luaScript max_bucket_size requests_per_second t tokensField
            last_refillField).2 =
        (some tok, some t) := by
  cases tokensField <;> cases last_refillField <;>
    simp only [luaScript, loadBucket] <;>
    split_ifs <;>
    exact ⟨_, rfl, by simp [List.countP_cons, RedisCall.isHmset], by simp,
      by simp, rfl⟩

/-- Claim C5: a call `acquire(blocking=False)` invokes the token-bucket
script exactly once and returns its boolean outcome directly, performing no
wait in either case, and the same holds for the non-blocking asynchronous
call `aacquire(blocking=False)`. -/
theorem nonblocking_acquire_single_call (check_every_n_seconds : ℚ)
    (o : Bool) (rest : List Bool) :
    acquire check_every_n_seconds false (o :: rest) = some (o, 1, []) ∧
    aacquire check_every_n_seconds false (o :: rest) = some (o, 1, []) := by
  constructor <;> simp [acquire, aacquire]

/-- Claim C6: `acquire(blocking=True)` re-invokes the script after each
failed attempt, sleeping exactly one fixed `check_every_n_seconds` interval
between consecutive attempts, with no bound on the number of attempts, and
returns `true` once an attempt succeeds: after `k` failures followed by a
success it has made `k + 1` script invocations and performed exactly `k`
sleeps of `check_every_n_seconds` each. -/
theorem blocking_acquire_polls (check_every_n_seconds : ℚ) (k : ℕ)
    (rest : List Bool) :
    acquire check_every_n_seconds true (List.replicate k false ++ true :: rest)
      = some (true, k + 1,
          List.replicate k (WaitEvent.threadSleep check_every_n_seconds)) := by
  simp only [acquire, if_pos]
  exact acquireLoop_replicate_false check_every_n_seconds k rest

/-- Claim C10: for every configuration, blocking flag and sequence of script
outcomes, `aacquire` returns the same boolean result, makes the same number
of script invocations and sleeps the same durations as `acquire`
(`traceSummary` equality), the two differing only in the kind of suspension:
every sleep of `acquire` is a thread sleep of `check_every_n_seconds` and
every sleep of `aacquire` is a cooperative sleep of `check_every_n_seconds`. -/
theorem aacquire_refines_acquire (check_every_n_seconds : ℚ)
    (blocking : Bool) (outcomes : List Bool) :
    traceSummary (aacquire check_every_n_seconds blocking outcomes) =
      traceSummary (acquire check_every_n_seconds blocking outcomes) ∧
    sleepEvents (acquire check_every_n_seconds blocking outcomes) =
      List.replicate
        (sleepEvents (acquire check_every_n_seconds blocking outcomes)).length
        (WaitEvent.threadSleep check_every_n_seconds) ∧
    sleepEvents (aacquire check_every_n_seconds blocking outcomes) =
      List.replicate
        (sleepEvents (aacquire check_every_n_seconds blocking outcomes)).length
        (WaitEvent.asyncSleep check_every_n_seconds) := by
  cases blocking with
  | false =>
      cases outcomes with
      | nil => simp [acquire, aacquire, traceSummary, sleepEvents]
      | cons o rest => simp [acquire, aacquire, traceSummary, sleepEvents]
  | true =>
      simp only [acquire, aacquire, if_pos]
      refine ⟨traceSummary_aacquireLoop_eq check_every_n_seconds outcomes,
        List.eq_replicate_of_mem ?_, List.eq_replicate_of_mem ?_⟩
      · exact fun e he =>
          mem_sleepEvents_acquireLoop check_every_n_seconds outcomes e he
      · exact fun e he =>
          mem_sleepEvents_aacquireLoop check_every_n_seconds outcomes e he

/-- Claim C8: the store key used by both the synchronous and the
asynchronous acquisition path is the configured prefix followed by the
fixed suffix ":rate_limit"; this derivation is injective, so limiters with
distinct prefixes use distinct keys and an execution through one limiter
never reads or writes the bucket state stored under a different prefix. -/
theorem bucket_key_derivation :
    (∀ p, bucketKey p = p ++ ":rate_limit") ∧
    (∀ p, bucketKeyAsync p = bucketKey p) ∧
    (∀ p₁ p₂, p₁ ≠ p₂ → bucketKey p₁ ≠ bucketKey p₂) ∧
    (∀ (p₁ p₂ : String) (max_bucket_size requests_per_second t : ℚ)
      (store : String → BucketFields), p₁ ≠ p₂ →
      (runOnStore p₁ max_bucket_size requests_per_second t store).2
          (bucketKey p₂) =
        store (bucketKey p₂)) := by
  have hinj : ∀ p₁ p₂, p₁ ≠ p₂ → bucketKey p₁ ≠ bucketKey p₂ := by
    intro p₁ p₂ hne heq
    apply hne
    have hd := congrArg String.data heq
    rw [bucketKey, bucketKey, String.data_append, String.data_append] at hd
    exact String.ext (List.append_left_injective _ hd)
  refine ⟨fun p => rfl, fun p => rfl, hinj, ?_⟩
  intro p₁ p₂ max_bucket_size requests_per_second t store hne
  have hk : bucketKey p₂ ≠ bucketKey p₁ := fun h => hinj p₁ p₂ hne h.symm
  simp [runOnStore, hk]

/-- Claim C2 as stated is false on the code: with the configured
`max_bucket_size = -1` (the code does not validate configuration), the very
first execution of the script on a fresh key stores `tokens = -1`, which
violates `0 <= tokens`. -/
theorem tokens_bounds_counterexample :
    runSeq (-1) 1 (none, none) [0] = (some (-1), some 0) ∧
    ¬ (0 ≤ (-1 : ℚ)) := by
  constructor
  · norm_num [runSeq, runScript, luaScript, loadBucket, applyCall,
      List.foldl, min_def]
  · norm_num

/-- Claim C2 amended: for nonnegative configured `max_bucket_size` and
`requests_per_second`, after every update in any sequence of script
executions on one key starting from an absent key, the stored tokens value
satisfies `0 <= tokens <= max_bucket_size`, regardless of the store-clock
times of the attempts. -/
theorem tokens_within_bounds (max_bucket_size requests_per_second : ℚ)
    (hmax : 0 ≤ max_bucket_size) (hrps : 0 ≤ requests_per_second)
    (t : ℚ) (ts : List ℚ) :
    ∃ tok l,
      runSeq max_bucket_size requests_per_second (none, none) (t :: ts) =
        (some tok, some l) ∧
      0 ≤ tok ∧ tok ≤ max_bucket_size := by
  simp only [runSeq]
  exact runSeq_good _ _ hmax hrps ts _
    (runScript_good _ _ hmax hrps t _ (Or.inl rfl))

theorem tokens_within_bounds_witness :
    (0 ≤ (1:ℚ)) ∧ (0 ≤ (1:ℚ)) ∧
    ∃ tok l, runSeq 1 1 (none, none) (0 :: []) = (some tok, some l) ∧
      0 ≤ tok ∧ tok ≤ (1:ℚ) :=
  ⟨by norm_num, by norm_num,
    tokens_within_bounds 1 1 (by norm_num) (by norm_num) 0 []⟩

/-- Claim C3: starting from an absent key with `max_bucket_size = M`, in
any run of consecutive debit attempts all made at the same store-clock time
(zero elapsed time between attempts), at most `M` attempts succeed; in the
run of `M + 1` attempts the first `M` succeed and the `(M+1)`-th fails. -/
theorem fresh_bucket_allows_at_most_max_burst (M : ℕ)
    (requests_per_second T : ℚ) (n : ℕ) :
    (runAttempts (M:ℚ) requests_per_second T (none, none) n).count true
      ≤ M ∧
    runAttempts (M:ℚ) requests_per_second T (none, none) (M + 1) =
      List.replicate M true ++ [false] := by
  constructor
  · rw [runAttempts_fresh_eq, count_true_map_range_lt]
    exact min_le_right n M
  · rw [runAttempts_fresh_eq, map_range_lt_self]

/-- Claim C4 as stated is false on the code: the script overwrites
`last_refill` with the store's current time unconditionally, so when the
store clock reports a time earlier than the stored `last_refill`, the
stored `last_refill` decreases across the pair of updates (the elapsed-time
clamp only protects the token refill). Here the first update stores
`last_refill = 10` and the second, at store time 3, stores
`last_refill = 3`. -/
theorem last_refill_decreases_counterexample :
    runSeq 10 1 (none, none) [10] = (some 9, some 10) ∧
    runSeq 10 1 (none, none) [10, 3] = (some 8, some 3) ∧
    ¬ ((10 : ℚ) ≤ 3) := by
  refine ⟨?_, ?_, by norm_num⟩ <;>
    norm_num [runSeq, runScript, luaScript, loadBucket, applyCall,
      List.foldl, min_def]

/-- Claim C4 amended: after every update the stored `last_refill` equals
that update's store-clock time; consequently `last_refill` is non-decreasing
across successive updates whenever the store-clock times of the updates are
non-decreasing (the clamp of elapsed time to zero protects the token count,
not the monotonicity of `last_refill`). -/
theorem last_refill_equals_update_time
    (max_bucket_size requests_per_second t₁ t₂ : ℚ) (st : BucketFields)
    (h : t₁ ≤ t₂) :
    ∃ l₁ l₂,
      (runScript max_bucket_size requests_per_second t₁ st).2.2 = some l₁ ∧
      (runScript max_bucket_size requests_per_second t₂
          (runScript max_bucket_size requests_per_second t₁ st).2).2.2 =
        some l₂ ∧
      l₁ = t₁ ∧ l₂ = t₂ ∧ l₁ ≤ l₂ :=
  ⟨t₁, t₂, runScript_last_refill _ _ _ _, runScript_last_refill _ _ _ _,
    rfl, rfl, h⟩

theorem last_refill_equals_update_time_witness :
    ((0:ℚ) ≤ 1) ∧
    ∃ l₁ l₂,
      (runScript 1 1 0 (none, none)).2.2 = some l₁ ∧
      (runScript 1 1 1 (runScript 1 1 0 (none, none)).2).2.2 = some l₂ ∧
      l₁ = 0 ∧ l₂ = 1 ∧ l₁ ≤ l₂ :=
  ⟨by norm_num,
    last_refill_equals_update_time 1 1 0 1 (none, none) (by norm_num)⟩

/-- Claim C7 as stated is false on the code: it holds only when the
configured `max_bucket_size` is at least 1. With `max_bucket_size = 0`
(reachable as a real bucket state: the first attempt on a fresh key stores
`tokens = 0`) and `requests_per_second = 1 > 0`, a debit attempt made
exactly `1/1` seconds after `last_refill` still fails, because the refilled
token count is capped at `min(max_bucket_size, 0 + 1) = 0 < 1`. -/
theorem drained_bucket_refill_counterexample :
    runSeq 0 1 (none, none) [0] = (some 0, some 0) ∧
    (0:ℚ) < 1 ∧
    (runScript 0 1 (0 + 1/1) (some 0, some 0)).1 = 0 := by
  refine ⟨?_, by norm_num, ?_⟩ <;>
    norm_num [runSeq, runScript, luaScript, loadBucket, applyCall,
      List.foldl, min_def]

/-- Claim C7 amended: for every `requests_per_second = r > 0` and
`max_bucket_size >= 1`, a debit attempt made on a bucket whose tokens value
is exactly 0, at store time exactly `1/r` seconds after the bucket's
`last_refill`, succeeds. -/
theorem drained_bucket_refills_after_inverse_rate
    (max_bucket_size requests_per_second l : ℚ)
    (hr : 0 < requests_per_second) (hM : 1 ≤ max_bucket_size) :
    (runScript max_bucket_size requests_per_second
        (l + 1 / requests_per_second) (some 0, some l)).1 = 1 := by
  have h1 : l + 1 / requests_per_second - l = 1 / requests_per_second := by
    ring
  have h2 : ¬ (1 / requests_per_second < 0) :=
    not_lt.2 (le_of_lt (one_div_pos.2 hr))
  have h3 : 1 / requests_per_second * requests_per_second = 1 :=
    one_div_mul_cancel (ne_of_gt hr)
  simp only [runScript, luaScript, loadBucket, h1, h2, if_false, zero_add,
    h3, min_eq_right hM]
  rw [if_pos le_rfl]

theorem drained_bucket_refills_witness :
    ((0:ℚ) < 2) ∧ ((1:ℚ) ≤ 1) ∧
    (runScript 1 2 (5 + 1/2) (some 0, some 5)).1 = 1 :=
  ⟨by norm_num, by norm_num,
    drained_bucket_refills_after_inverse_rate 1 2 5 (by norm_num)
      (by norm_num)⟩

/-- Witness for the key-separation claim at concrete prefixes: two limiters
configured with prefixes "a" and "b" use distinct keys, and a script
execution through the first leaves the bucket state stored under the
second's key untouched. -/
theorem bucket_key_derivation_witness :
    (("a" : String) ≠ "b") ∧
    bucketKey "a" ≠ bucketKey "b" ∧
    (runOnStore "a" 1 1 0 (fun _ => (none, none))).2 (bucketKey "b") =
      (none, none) :=
  ⟨by decide,
    bucket_key_derivation.2.2.1 "a" "b" (by decide),
    bucket_key_derivation.2.2.2 "a" "b" 1 1 0 (fun _ => (none, none))
      (by decide)⟩

end RedisRateLimiter
